import Mathlib

/-!
Verification of the bar-label OCR fusion pipeline of sunsol-demo
(`src/app/page.tsx`).  The file shallowly embeds the numeric and
list-processing parts of the pipeline:

* `pickCandidateNumber` (page.tsx lines 1248-1261) — parsing one raw OCR
  text into a validated integer in [20, 3000];
* `bestNumberFromTessData` (lines 353-385) — the word-based parser of the
  first pipeline variant;
* `fuseCandidates` — the temporal-fusion step of `runLumaBarLabelOcr`
  (lines 1483-1525): sort by xCenter, keep the rightmost at most 12,
  compute monthly average / annual total / mean confidence;
* `handleFileSets` — the way `handleFile` (lines 1647-1661) publishes the
  run result (nulls and the insufficient-data error below 4 months);
* `keepByStrength` / `selectSegsForOcr` — the segment-count limiting of
  `runLumaBarLabelOcr` (lines 1406-1412);
* `mergeSegs` — the segment merge of `findBarSegments` (lines 1123-1133);
* `commercialOutcome` — the commercial flag of the first variant's
  `handleFile` (lines 547-566);
* `axisCutX` — the x position of the axis-excluding cut computed by
  `detectGraphZone` (lines 1144-1214), over an abstract grayscale buffer.

JavaScript numbers are modelled as `ℚ` (all quantities involved are exact
decimal fractions), `Math.round` as `jsRound`, and JavaScript's stable
`Array.prototype.sort` as `List.insertionSort` with the corresponding
non-strict comparator.
-/

namespace Sunsol

/-- `Math.round` on the rationals: floor of `q + 1/2` (JavaScript rounds
half-up; all rounded quantities in the pipeline are nonnegative).
`Rat.floor` is used so that the definition evaluates by `decide`. -/
def jsRound (q : ℚ) : ℤ :=
  (q + 1 / 2).floor

/-- `Math.round(n * p)` for a nonnegative scale factor, as used for all
the proportional coordinates (`Math.round(h * 0.92)` and friends). -/
def roundFrac (n : ℕ) (p : ℚ) : ℕ :=
  (jsRound ((n : ℚ) * p)).toNat

/-- Value of a digit string under JavaScript `Number` / `parseInt`
(the strings fed to it in the source consist of decimal digits only). -/
def digitsToNat (l : List Char) : ℕ :=
  l.foldl (fun acc c => 10 * acc + (c.toNat - 48)) 0

/-- `pickCandidateNumber` (page.tsx lines 1248-1261).  Strip non-digits;
a run of at most 4 digits is tried directly, a longer run is tried as its
last 4, then last 3, then last 2 digits; the first try inside [20, 3000]
is returned, otherwise `null`. -/
def pickCandidateNumber (raw : String) : Option ℕ :=
  let digits := raw.data.filter Char.isDigit
  if digits.isEmpty then none
  else
    let tries :=
      if digits.length ≤ 4 then [digits]
      else [digits.drop (digits.length - 4), digits.drop (digits.length - 3),
            digits.drop (digits.length - 2)]
    tries.findSome? fun t =>
      let n := digitsToNat t
      if 20 ≤ n ∧ n ≤ 3000 then some n else none

/-- One word of a tesseract result (`data.words[i]`). -/
structure TessWord where
  text : String
  confidence : ℚ
deriving DecidableEq

/-- The fields of a tesseract `data` object read by
`bestNumberFromTessData`. -/
structure TessData where
  words : List TessWord
  text : String
  confidence : ℚ
deriving DecidableEq

/-- A parsed numeric candidate with its confidence. -/
structure NumCand where
  value : ℕ
  conf : ℚ
deriving DecidableEq

/-- Maximal runs of consecutive digits of a character list (the runs the
regex `\d{2,4}` walks through); first argument accumulates the current
run in reverse. -/
def digitRunsAux : List Char → List Char → List (List Char)
  | cur, [] => if cur.isEmpty then [] else [cur.reverse]
  | cur, c :: rest =>
    if c.isDigit then digitRunsAux (c :: cur) rest
    else if cur.isEmpty then digitRunsAux [] rest
    else cur.reverse :: digitRunsAux [] rest

/-- Maximal digit runs of a string. -/
def digitRuns (l : List Char) : List (List Char) :=
  digitRunsAux [] l

/-- Greedy matching of `\d{2,4}` inside one digit run: take 4 digits as
long as at least 4 remain, then the remainder if it still has at least
2 digits. -/
def chunk24 (run : List Char) : List (List Char) :=
  if 4 ≤ run.length then run.take 4 :: chunk24 (run.drop 4)
  else if 2 ≤ run.length then [run] else []
termination_by run.length
decreasing_by
  simp only [List.length_drop]
  omega

/-- All matches of `t.match(/\d{2,4}/g)`. -/
def digitChunks (l : List Char) : List (List Char) :=
  (digitRuns l).foldr (fun r acc => chunk24 r ++ acc) []

/-- `candidates.sort((a, b) => b.conf - a.conf)[0]`: the first candidate
of maximal confidence (stable descending sort, then head). -/
def maxByConf : List NumCand → Option NumCand
  | [] => none
  | c :: rest => some (rest.foldl (fun best x => if best.conf < x.conf then x else best) c)

/-- The per-word candidates of `bestNumberFromTessData` (page.tsx lines
357-367): the word text cleaned to digits must have length 2..4 and
parse into [20, 3000]. -/
def wordCandsOf (data : TessData) : List NumCand :=
  data.words.filterMap fun w =>
    let cleaned := w.text.data.filter Char.isDigit
    if cleaned.length < 2 ∨ 4 < cleaned.length then none
    else if digitsToNat cleaned < 20 ∨ 3000 < digitsToNat cleaned then none
    else some { value := digitsToNat cleaned, conf := w.confidence }

/-- The fallback candidates from the full text (page.tsx lines 370-379):
every `\d{2,4}` match inside [20, 3000], carrying the block
confidence. -/
def textCandsOf (data : TessData) : List NumCand :=
  (digitChunks data.text.data).filterMap fun m =>
    if digitsToNat m < 20 ∨ 3000 < digitsToNat m then none
    else some { value := digitsToNat m, conf := data.confidence }

/-- The candidate pool: word candidates, else the text fallback
(page.tsx lines 369-379, `if (!candidates.length)`). -/
def bestCandsOf (data : TessData) : List NumCand :=
  if (wordCandsOf data).isEmpty then textCandsOf data else wordCandsOf data

/-- `bestNumberFromTessData` (page.tsx lines 353-385): word candidates,
else text-fallback candidates; the highest-confidence one wins, and the
result is `(null, 0)` when there is none. -/
def bestNumberFromTessData (data : TessData) : Option ℕ × ℚ :=
  match maxByConf (bestCandsOf data) with
  | none => (none, 0)
  | some c => (some c.value, c.conf)

/-- One recognised bar label of `runLumaBarLabelOcr` (only bars whose
value parsed are pushed, page.tsx line 1478). -/
structure Candidate where
  xCenter : ℚ
  value : ℕ
  conf : ℚ
  raw : String
deriving DecidableEq

/-- The comparator `(a, b) => a.xCenter - b.xCenter` of the stable
JavaScript sort at line 1483. -/
def candLE (a b : Candidate) : Prop :=
  a.xCenter ≤ b.xCenter

instance : DecidableRel candLE :=
  fun a b => inferInstanceAs (Decidable (a.xCenter ≤ b.xCenter))

instance : IsTotal Candidate candLE :=
  ⟨fun a b => le_total a.xCenter b.xCenter⟩

instance : IsTrans Candidate candLE :=
  ⟨fun _ _ _ hab hbc => le_trans hab hbc⟩

/-- `candidates.sort((a, b) => a.xCenter - b.xCenter)` (line 1483). -/
def orderedOf (cs : List Candidate) : List Candidate :=
  List.insertionSort candLE cs

/-- `ordered.map(o => o.value)` (line 1484). -/
def detectedAllOf (cs : List Candidate) : List ℕ :=
  (orderedOf cs).map fun c => c.value

/-- `detectedAll.length > 12 ? detectedAll.slice(-12) : detectedAll`
(line 1486): the rightmost at most 12 values. -/
def usedOf (cs : List Candidate) : List ℕ :=
  if 12 < (detectedAllOf cs).length then
    (detectedAllOf cs).drop ((detectedAllOf cs).length - 12)
  else detectedAllOf cs

/-- `ordered.length ? ordered.reduce((a, o) => a + o.conf, 0) /
ordered.length : 0` (line 1488): mean confidence over all detected
candidates. -/
def confAvgOf (cs : List Candidate) : ℚ :=
  if (orderedOf cs).length = 0 then 0
  else ((orderedOf cs).map fun c => c.conf).sum / ((orderedOf cs).length : ℚ)

/-- Arithmetic mean of the confidences of a list of candidates. -/
def meanConf (l : List Candidate) : ℚ :=
  if l.length = 0 then 0 else (l.map fun c => c.conf).sum / (l.length : ℚ)

/-- The candidate records whose values make up `usedLast12`: the
rightmost at most 12 of the xCenter-ordered candidates. -/
def usedCandsOf (cs : List Candidate) : List Candidate :=
  if 12 < (orderedOf cs).length then
    (orderedOf cs).drop ((orderedOf cs).length - 12)
  else orderedOf cs

/-- The numeric fields of `OcrRunResult` (page.tsx lines 1375-1384;
the canvases and debug strings are omitted). -/
structure OcrRunResult where
  detectedAll : List ℕ
  usedLast12 : List ℕ
  monthsUsed : ℕ
  avgMonthly : ℚ
  annualKwh : ℤ
  estimatedAnnual : Bool
  confidenceAvg : ℚ
deriving DecidableEq

/-- The fusion tail of `runLumaBarLabelOcr` (page.tsx lines 1483-1525):
under 4 usable values it returns the zeroed insufficient result, else
monthly average, annual total (exact sum for 12 values, average times 12
rounded otherwise) and the estimated flag. -/
def fuseCandidates (cs : List Candidate) : OcrRunResult :=
  if (usedOf cs).length < 4 then
    { detectedAll := detectedAllOf cs
      usedLast12 := usedOf cs
      monthsUsed := (usedOf cs).length
      avgMonthly := 0
      annualKwh := 0
      estimatedAnnual := true
      confidenceAvg := confAvgOf cs }
  else
    { detectedAll := detectedAllOf cs
      usedLast12 := usedOf cs
      monthsUsed := (usedOf cs).length
      avgMonthly := ((usedOf cs).sum : ℚ) / ((usedOf cs).length : ℚ)
      annualKwh := jsRound (if 12 ≤ (usedOf cs).length then ((usedOf cs).sum : ℚ)
        else ((usedOf cs).sum : ℚ) / ((usedOf cs).length : ℚ) * 12)
      estimatedAnnual := !(decide (12 ≤ (usedOf cs).length))
      confidenceAvg := confAvgOf cs }

/-- What `handleFile` publishes from a run result (page.tsx lines
1647-1661): the average and annual values are nulled below 4 months and
the insufficient-data error message is raised. -/
structure HandleFileView where
  avgMonthlyOcr : Option ℚ
  annualOcr : Option ℤ
  insufficientError : Bool
deriving DecidableEq

/-- `setAvgMonthlyOcr(monthsUsed >= 4 ? avgMonthly : null)`,
`setAnnualOcr(monthsUsed >= 4 ? annualKwh : null)`, and the
`monthsUsed < 4` error branch of `handleFile`. -/
def handleFileSets (r : OcrRunResult) : HandleFileView :=
  { avgMonthlyOcr := if 4 ≤ r.monthsUsed then some r.avgMonthly else none
    annualOcr := if 4 ≤ r.monthsUsed then some r.annualKwh else none
    insufficientError := decide (r.monthsUsed < 4) }

/-- A bar segment of `findBarSegments` (page.tsx line 1062):
`{ x0, x1, strength }`, coordinates in downscaled pixels, strength the
peak smoothed column density. -/
structure Segment where
  x0 : ℕ
  x1 : ℕ
  strength : ℚ
deriving DecidableEq

/-- The comparator `(a, b) => b.strength - a.strength` (descending
strength, stable) of line 1408. -/
def strengthGE (a b : Segment) : Prop :=
  b.strength ≤ a.strength

instance : DecidableRel strengthGE :=
  fun a b => inferInstanceAs (Decidable (b.strength ≤ a.strength))

instance : IsTotal Segment strengthGE :=
  ⟨fun a b => le_total b.strength a.strength⟩

instance : IsTrans Segment strengthGE :=
  ⟨fun _ _ _ hab hbc => le_trans hbc hab⟩

/-- The comparator `(a, b) => a.x0 - b.x0` (ascending x, stable) of
line 1409. -/
def segLE (a b : Segment) : Prop :=
  a.x0 ≤ b.x0

instance : DecidableRel segLE :=
  fun a b => inferInstanceAs (Decidable (a.x0 ≤ b.x0))

instance : IsTotal Segment segLE :=
  ⟨fun a b => le_total a.x0 b.x0⟩

instance : IsTrans Segment segLE :=
  ⟨fun _ _ _ hab hbc => le_trans hab hbc⟩

/-- `if (segs.length > 18) segs = segs.sort((a, b) => b.strength -
a.strength).slice(0, 18)` (page.tsx line 1408). -/
def keepByStrength (segs : List Segment) : List Segment :=
  if 18 < segs.length then (List.insertionSort strengthGE segs).take 18 else segs

/-- Segment selection of `runLumaBarLabelOcr` (lines 1406-1412): cap at
the 18 strongest, restore ascending x order, then keep the rightmost at
most 12 for recognition. -/
def selectSegsForOcr (segs : List Segment) : List Segment :=
  if 12 < (List.insertionSort segLE (keepByStrength segs)).length then
    (List.insertionSort segLE (keepByStrength segs)).drop
      ((List.insertionSort segLE (keepByStrength segs)).length - 12)
  else List.insertionSort segLE (keepByStrength segs)

/-- The merge loop of `findBarSegments` (page.tsx lines 1123-1133),
accumulator reversed: a segment starting at most 6 px after the end of
the previous one is absorbed into it (extending `x1`, keeping the larger
strength), otherwise it is appended. -/
def mergeAux : List Segment → List Segment → List Segment
  | acc, [] => acc
  | [], s :: rest => mergeAux [s] rest
  | last :: tl, s :: rest =>
    if s.x0 - last.x1 ≤ 6 then
      mergeAux ({ x0 := last.x0, x1 := s.x1,
                  strength := max last.strength s.strength } :: tl) rest
    else mergeAux (s :: last :: tl) rest

/-- `findBarSegments`' duplicate-segment merge (lines 1123-1133). -/
def mergeSegs (segs : List Segment) : List Segment :=
  (mergeAux [] segs).reverse

/-- One OCR-ed bar of the first pipeline variant (page.tsx lines
26-30): normalised x, parsed value or null, confidence. -/
structure OcrBar where
  x : ℚ
  value : Option ℕ
  conf : ℚ
deriving DecidableEq

/-- The comparator `(a, b) => a.x - b.x` of `bars.sort` (page.tsx line
550). -/
def barLE (a b : OcrBar) : Prop :=
  a.x ≤ b.x

instance : DecidableRel barLE :=
  fun a b => inferInstanceAs (Decidable (a.x ≤ b.x))

instance : IsTotal OcrBar barLE :=
  ⟨fun a b => le_total a.x b.x⟩

instance : IsTrans OcrBar barLE :=
  ⟨fun _ _ _ hab hbc => le_trans hab hbc⟩

/-- The commercial flag computed by the first variant's `handleFile`
(page.tsx lines 547-566): sort bars by x, keep the numeric ones, use the
rightmost at most 12; on fewer than 4 the function returns early with
the flag still at its reset value `false`, otherwise the flag is
`used.some(u => u.value > 3000)`. -/
def numericBarsOf (bars : List OcrBar) : List OcrBar :=
  (List.insertionSort barLE bars).filter fun b => b.value.isSome

/-- `numericBars.length > 12 ? numericBars.slice(-12) : numericBars`
(page.tsx line 557). -/
def usedBarsOf (bars : List OcrBar) : List OcrBar :=
  if 12 < (numericBarsOf bars).length then
    (numericBarsOf bars).drop ((numericBarsOf bars).length - 12)
  else numericBarsOf bars

def commercialOutcome (bars : List OcrBar) : Bool :=
  if (usedBarsOf bars).length < 4 then false
  else (usedBarsOf bars).any fun b => 3000 < b.value.getD 0

/-- The bars assembled by the OCR loop of the first variant (page.tsx
lines 410-415): for each ROI, x position plus the value/confidence pair
of `bestNumberFromTessData`. -/
def barsFromTess (inputs : List (ℚ × TessData)) : List OcrBar :=
  inputs.map fun p =>
    { x := p.1, value := (bestNumberFromTessData p.2).1,
      conf := (bestNumberFromTessData p.2).2 }

/-- Per-column dark-pixel count of `findBarSegments` (page.tsx lines
1082-1089): the number of rows `y` in `[y0, y1)` whose grayscale value
at column `x` is below 175.  The grayscale buffer is abstracted as a
function `g : column → row → value`. -/
def colCount (g : ℕ → ℕ → ℕ) (y0 y1 x : ℕ) : ℕ :=
  ((List.range (y1 - y0)).filter fun i => g x (y0 + i) < 175).length

/-- The in-bounds window `[x - 3, x + 3] ∩ [0, w)` of `movingAverage`
with window 7 (page.tsx lines 1064-1079). -/
def maWindow (w x : ℕ) : List ℕ :=
  (List.range w).filter fun j => x ≤ j + 3 ∧ j ≤ x + 3

/-- `movingAverage(col, 7)[x]` (page.tsx lines 1064-1079): mean of the
column counts over the in-bounds window, falling back to `col x` on an
empty window. -/
def smoothAt (col : ℕ → ℕ) (w x : ℕ) : ℚ :=
  if (maWindow w x).length = 0 then (col x : ℚ)
  else (((maWindow w x).map col).sum : ℚ) / ((maWindow w x).length : ℚ)

/-- `colTh = Math.max(6, Math.round(winH * 0.12))` with
`winH = Math.max(1, y1 - y0)` (page.tsx lines 1092-1093). -/
def colThOf (y0 y1 : ℕ) : ℤ :=
  max 6 (jsRound ((max 1 (y1 - y0) : ℕ) * (12 / 100 : ℚ)))

/-- State of the segment scan of `findBarSegments` (lines 1095-1121):
closed segments so far plus the open segment (start, running peak), if
any. -/
structure ScanState where
  segs : List Segment
  cur : Option (ℕ × ℚ)
deriving DecidableEq

/-- One iteration of the segment scan at column `x` (lines 1100-1116):
above-threshold columns open or extend a segment, a below-threshold
column closes the open segment, keeping it when at least 6 px wide. -/
def scanStep (v : ℕ → ℚ) (th : ℚ) (st : ScanState) (x : ℕ) : ScanState :=
  if th ≤ v x then
    match st.cur with
    | none => { segs := st.segs, cur := some (x, v x) }
    | some (s0, str) => { segs := st.segs, cur := some (s0, max str (v x)) }
  else
    match st.cur with
    | none => st
    | some (s0, str) =>
      let e := x - 1
      { segs := if 6 ≤ e - s0 + 1 then
          st.segs ++ [{ x0 := s0, x1 := e, strength := str }] else st.segs
        cur := none }

/-- Closing of a segment still open at the right edge (lines
1117-1121). -/
def scanFlush (w : ℕ) (st : ScanState) : List Segment :=
  match st.cur with
  | none => st.segs
  | some (s0, str) =>
    let e := w - 1
    if 6 ≤ e - s0 + 1 then st.segs ++ [{ x0 := s0, x1 := e, strength := str }]
    else st.segs

/-- `findBarSegments(gray, w, h, y0, y1)` (page.tsx lines 1081-1135):
column dark counts over the band `[y0, y1)`, smoothed with a 7-wide
moving average, thresholded, scanned into segments of width at least 6,
and finally merged when closer than 6 px. -/
def findBarSegments (g : ℕ → ℕ → ℕ) (w _h y0 y1 : ℕ) : List Segment :=
  mergeSegs (scanFlush w ((List.range w).foldl
    (scanStep (smoothAt (colCount g y0 y1) w) ((colThOf y0 y1 : ℤ) : ℚ))
    { segs := [], cur := none }))

/-- `scoreSegments` (page.tsx lines 1137-1142). -/
def scoreSegments (segs : List Segment) : ℚ :=
  let n := segs.length
  let nScore : ℚ := if 10 ≤ n ∧ n ≤ 15 then 100 else if 7 ≤ n ∧ n ≤ 18 then 60 else 0
  nScore + min 80 ((segs.map fun s => s.strength).sum / 50)

/-- `findBarSegments(gray, w, h, y0, yEnd)` with the fixed scan bottom
`yEnd = Math.round(h * 0.92)` of `detectGraphZone` (page.tsx line
1151). -/
def scanBand (g : ℕ → ℕ → ℕ) (w h y0 : ℕ) : List Segment :=
  findBarSegments g w h y0 (roundFrac h (92 / 100))

/-- The candidate-band loop of `detectGraphZone` (page.tsx lines
1150-1159): try the four candidate top positions and keep the
best-scoring `(score, y0, segs)` triple, starting from score -1. -/
def bestBand (g : ℕ → ℕ → ℕ) (w h : ℕ) : ℚ × ℕ × List Segment :=
  [roundFrac h (15 / 100), roundFrac h (25 / 100),
   roundFrac h (35 / 100), roundFrac h (45 / 100)].foldl
    (fun b y0 =>
      if b.1 < scoreSegments (scanBand g w h y0) then
        (scoreSegments (scanBand g w h y0), y0, scanBand g w h y0)
      else b)
    ((-1 : ℚ), roundFrac h (15 / 100), ([] : List Segment))

/-- Lines 1161-1167 of page.tsx: on fewer than 6 segments, rescan from
the 35% band. -/
def chosenSegs (g : ℕ → ℕ → ℕ) (w h : ℕ) : List Segment :=
  if (bestBand g w h).2.2.length < 6 then scanBand g w h (roundFrac h (35 / 100))
  else (bestBand g w h).2.2

/-- The x position of the axis-excluding cut chosen by `detectGraphZone`
(page.tsx lines 1169-1202), in the coordinates of the downscaled
grayscale image `g` of width `w` and height `h`: the leftmost segment
start (3% of the width as fallback), then a further fixed 7.5% of the
width is discarded and the result clamped to the image.  This is
`rect.x` before the upscale by `sx`. -/
def axisCutX (g : ℕ → ℕ → ℕ) (w h : ℕ) : ℕ :=
  min (w - 1)
    ((if (chosenSegs g w h).length ≠ 0 then
        (chosenSegs g w h).foldl (fun m s => min m s.x0) (w - 1)
      else roundFrac w (3 / 100)) + roundFrac w (75 / 1000))

/-- A three-candidate run (Scenario C of the spec). -/
def cs3 : List Candidate :=
  [{ xCenter := 10, value := 300, conf := 80, raw := "300" },
   { xCenter := 20, value := 320, conf := 85, raw := "320" },
   { xCenter := 30, value := 310, conf := 90, raw := "310" }]

/-- A five-candidate run whose used values sum to 101, so that the
average times 12 is the non-integer 242.4. -/
def cs5 : List Candidate :=
  [{ xCenter := 1, value := 20, conf := 50, raw := "20" },
   { xCenter := 2, value := 20, conf := 50, raw := "20" },
   { xCenter := 3, value := 20, conf := 50, raw := "20" },
   { xCenter := 4, value := 20, conf := 50, raw := "20" },
   { xCenter := 5, value := 21, conf := 50, raw := "21" }]

/-- A twelve-candidate run, each month 100 kWh. -/
def cs12 : List Candidate :=
  (List.range 12).map fun i =>
    { xCenter := (i : ℚ), value := 100, conf := 50, raw := "100" }

/-- A thirteen-candidate run whose oldest (leftmost) candidate carries
confidence 65 while the twelve used ones carry confidence 0. -/
def cs13 : List Candidate :=
  { xCenter := 0, value := 100, conf := 65, raw := "100" } ::
    ((List.range 12).map fun i =>
      { xCenter := ((i + 1 : ℕ) : ℚ), value := 100, conf := 0, raw := "100" })

/-- Two candidates only 1 px apart in xCenter (a small fraction of any
plausible bar spacing), the right one with far lower confidence. -/
def cs2dup : List Candidate :=
  [{ xCenter := 100, value := 500, conf := 90, raw := "500" },
   { xCenter := 101, value := 777, conf := 10, raw := "777" }]

/-- Fourteen disjoint segments of increasing strength. -/
def segs14 : List Segment :=
  (List.range 14).map fun i => { x0 := 10 * i, x1 := 10 * i + 5, strength := (i : ℚ) }

/-- Nineteen disjoint segments of increasing strength. -/
def segs19 : List Segment :=
  (List.range 19).map fun i => { x0 := 10 * i, x1 := 10 * i + 5, strength := (i : ℚ) }

/-- The garbage/merged recognition text of Scenario E. -/
def raw42500 : String := "42500"

/-- The spaced recognition text of Scenario D. -/
def raw825 : String := "8 2 5"

/-- A one-word tesseract result reading 42 at confidence 80. -/
def tdWord42 : TessData :=
  { words := [{ text := "42", confidence := 80 }], text := "42", confidence := 77 }

theorem jsRound_eq_floor (q : ℚ) : jsRound q = Int.floor (q + 1 / 2) := by
  unfold jsRound
  rw [Rat.floor_def']
  rw [Rat.floor_def]

theorem jsRound_natCast (n : ℕ) : jsRound (n : ℚ) = n := by
  rw [jsRound_eq_floor]
  rw [Int.floor_eq_iff]
  constructor
  · push_cast
    linarith
  · push_cast
    linarith

theorem usedOf_suffix (cs : List Candidate) : usedOf cs <:+ detectedAllOf cs := by
  unfold usedOf
  split
  · exact List.drop_suffix _ _
  · exact List.suffix_refl _

theorem usedOf_length_le (cs : List Candidate) : (usedOf cs).length ≤ 12 := by
  unfold usedOf
  split
  · simp only [List.length_drop]
    omega
  · omega

theorem orderedOf_perm (cs : List Candidate) : List.Perm (orderedOf cs) cs :=
  List.perm_insertionSort candLE cs

theorem orderedOf_length (cs : List Candidate) : (orderedOf cs).length = cs.length :=
  (orderedOf_perm cs).length_eq

theorem fuse_detectedAll (cs : List Candidate) :
    (fuseCandidates cs).detectedAll = detectedAllOf cs := by
  unfold fuseCandidates
  split <;> rfl

theorem fuse_usedLast12 (cs : List Candidate) :
    (fuseCandidates cs).usedLast12 = usedOf cs := by
  unfold fuseCandidates
  split <;> rfl

theorem fuse_monthsUsed (cs : List Candidate) :
    (fuseCandidates cs).monthsUsed = (usedOf cs).length := by
  unfold fuseCandidates
  split <;> rfl

theorem fuse_confidenceAvg (cs : List Candidate) :
    (fuseCandidates cs).confidenceAvg = confAvgOf cs := by
  unfold fuseCandidates
  split <;> rfl

theorem fuse_lt4 (cs : List Candidate) (h : (usedOf cs).length < 4) :
    (fuseCandidates cs).avgMonthly = 0 ∧ (fuseCandidates cs).annualKwh = 0 := by
  unfold fuseCandidates
  rw [if_pos h]
  exact ⟨rfl, rfl⟩

theorem fuse_ge4 (cs : List Candidate) (h : 4 ≤ (usedOf cs).length) :
    (fuseCandidates cs).annualKwh =
      jsRound (if 12 ≤ (usedOf cs).length then ((usedOf cs).sum : ℚ)
        else ((usedOf cs).sum : ℚ) / ((usedOf cs).length : ℚ) * 12) ∧
    (fuseCandidates cs).estimatedAnnual = !(decide (12 ≤ (usedOf cs).length)) ∧
    (fuseCandidates cs).avgMonthly = ((usedOf cs).sum : ℚ) / ((usedOf cs).length : ℚ) := by
  unfold fuseCandidates
  rw [if_neg (by omega)]
  exact ⟨rfl, rfl, rfl⟩

/-- Claim C1: whenever fewer than 4 non-null candidates remain after the
rightmost-at-most-12 selection, `handleFile` publishes the
insufficient-data error, both the monthly average and the annual total
are null, and the run result itself carries no numeric estimate. -/
theorem c1_insufficient_floor (cs : List Candidate)
    (h : (fuseCandidates cs).monthsUsed < 4) :
    (handleFileSets (fuseCandidates cs)).avgMonthlyOcr = none ∧
    (handleFileSets (fuseCandidates cs)).annualOcr = none ∧
    (handleFileSets (fuseCandidates cs)).insufficientError = true ∧
    (fuseCandidates cs).avgMonthly = 0 ∧
    (fuseCandidates cs).annualKwh = 0 := by
  have hm := fuse_monthsUsed cs
  have h4 := h
  rw [hm] at h4
  obtain ⟨h1, h2⟩ := fuse_lt4 cs h4
  refine ⟨?_, ?_, ?_, h1, h2⟩
  · unfold handleFileSets
    simp only
    rw [if_neg (by omega)]
  · unfold handleFileSets
    simp only
    rw [if_neg (by omega)]
  · unfold handleFileSets
    simp only
    simpa using h

theorem c1_insufficient_floor_witness :
    (fuseCandidates cs3).monthsUsed < 4 ∧
    (handleFileSets (fuseCandidates cs3)).avgMonthlyOcr = none ∧
    (handleFileSets (fuseCandidates cs3)).annualOcr = none ∧
    (handleFileSets (fuseCandidates cs3)).insufficientError = true :=
  ⟨by decide, (c1_insufficient_floor cs3 (by decide)).1,
    (c1_insufficient_floor cs3 (by decide)).2.1,
    (c1_insufficient_floor cs3 (by decide)).2.2.1⟩

/-- Claim C2, counterexample to the 4-to-11-months part as stated: for
the five-value run `cs5` the published annual figure is 242, while the
arithmetic average times 12 is 242.4 — `annualKwh` is `Math.round`ed and
so does not equal the average times 12 exactly. -/
theorem c2_rounding_counterexample :
    4 ≤ (fuseCandidates cs5).monthsUsed ∧ (fuseCandidates cs5).monthsUsed ≤ 11 ∧
    ((fuseCandidates cs5).annualKwh : ℚ) ≠ (fuseCandidates cs5).avgMonthly * 12 := by
  have hlen : (usedOf cs5).length = 5 := by decide
  have hsum : (usedOf cs5).sum = 101 := by decide
  have hm := fuse_monthsUsed cs5
  obtain ⟨ha, -, hv⟩ := fuse_ge4 cs5 (by omega)
  refine ⟨by omega, by omega, ?_⟩
  rw [ha, hv, hsum, hlen, if_neg (by norm_num), jsRound_eq_floor]
  norm_num

/-- Claim C2 as amended: with exactly 12 used values `annualKwh` is their
exact sum and the estimate flag is off; with 4 to 11 used values
`annualKwh` is the average times 12 rounded to the nearest integer and
the result is flagged as an estimate. -/
theorem c2_annual_totals (cs : List Candidate) :
    ((fuseCandidates cs).monthsUsed = 12 →
      (fuseCandidates cs).annualKwh = ((usedOf cs).sum : ℤ) ∧
      (fuseCandidates cs).estimatedAnnual = false) ∧
    (4 ≤ (fuseCandidates cs).monthsUsed → (fuseCandidates cs).monthsUsed ≤ 11 →
      (fuseCandidates cs).annualKwh = jsRound ((fuseCandidates cs).avgMonthly * 12) ∧
      (fuseCandidates cs).estimatedAnnual = true) := by
  have hm := fuse_monthsUsed cs
  constructor
  · intro h12
    rw [hm] at h12
    obtain ⟨ha, he, -⟩ := fuse_ge4 cs (by omega)
    constructor
    · rw [ha, if_pos (by omega), jsRound_natCast]
    · rw [he]
      simp [h12]
  · intro hge hle
    rw [hm] at hge hle
    obtain ⟨ha, he, hv⟩ := fuse_ge4 cs hge
    constructor
    · rw [ha, if_neg (by omega), hv]
    · rw [he]
      simp
      omega

theorem c2_annual_totals_witness :
    (fuseCandidates cs12).annualKwh = ((usedOf cs12).sum : ℤ) ∧
    (fuseCandidates cs5).annualKwh = jsRound ((fuseCandidates cs5).avgMonthly * 12) :=
  ⟨((c2_annual_totals cs12).1 (by decide)).1,
    ((c2_annual_totals cs5).2 (by decide) (by decide)).1⟩

/-- Claim C3: the used values are the rightmost at most 12 of the
recognised values after the stable sort by ascending xCenter — a suffix
of the left-to-right series, of length at most 12; the series is the
value image of an xCenter-sorted permutation of the candidates, so it is
never reordered by value or confidence. -/
theorem c3_values_used_suffix (cs : List Candidate) :
    (fuseCandidates cs).usedLast12 <:+ (fuseCandidates cs).detectedAll ∧
    (fuseCandidates cs).usedLast12.length ≤ 12 ∧
    (fuseCandidates cs).detectedAll = (orderedOf cs).map (fun c => c.value) ∧
    List.Sorted candLE (orderedOf cs) ∧
    List.Perm (orderedOf cs) cs := by
  rw [fuse_usedLast12, fuse_detectedAll]
  exact ⟨usedOf_suffix cs, usedOf_length_le cs, rfl,
    List.sorted_insertionSort candLE cs, orderedOf_perm cs⟩

theorem foldl_pick_mem (l : List NumCand) (init : NumCand) :
    l.foldl (fun best x => if best.conf < x.conf then x else best) init = init ∨
    l.foldl (fun best x => if best.conf < x.conf then x else best) init ∈ l := by
  induction l generalizing init with
  | nil => exact Or.inl rfl
  | cons y ys ih =>
    rw [List.foldl_cons]
    rcases ih (if init.conf < y.conf then y else init) with h1 | h1
    · rw [h1]
      split
      · exact Or.inr (by simp)
      · exact Or.inl rfl
    · exact Or.inr (List.mem_cons_of_mem _ h1)

theorem maxByConf_mem {l : List NumCand} {c : NumCand} (h : maxByConf l = some c) :
    c ∈ l := by
  match l, h with
  | a :: t, h =>
    obtain rfl := Option.some.inj h.symm
    rcases foldl_pick_mem t a with h1 | h1
    · rw [h1]
      exact List.mem_cons_self a t
    · exact List.mem_cons_of_mem _ h1

theorem bestCands_range (td : TessData) :
    ∀ x ∈ bestCandsOf td, 20 ≤ x.value ∧ x.value ≤ 3000 := by
  have hw : ∀ x ∈ wordCandsOf td, 20 ≤ x.value ∧ x.value ≤ 3000 := by
    intro x hx
    obtain ⟨w, -, hfx⟩ := List.mem_filterMap.mp hx
    try simp only at hfx
    split at hfx
    · exact absurd hfx (by simp)
    · split at hfx
      · exact absurd hfx (by simp)
      · obtain rfl := Option.some.inj hfx
        dsimp only
        omega
  have htx : ∀ x ∈ textCandsOf td, 20 ≤ x.value ∧ x.value ≤ 3000 := by
    intro x hx
    obtain ⟨m, -, hfx⟩ := List.mem_filterMap.mp hx
    try simp only at hfx
    split at hfx
    · exact absurd hfx (by simp)
    · obtain rfl := Option.some.inj hfx
      dsimp only
      omega
  unfold bestCandsOf
  split <;> intro x hx
  · exact htx x hx
  · exact hw x hx

theorem bestNumber_range {td : TessData} {v : ℕ}
    (h : (bestNumberFromTessData td).1 = some v) : 20 ≤ v ∧ v ≤ 3000 := by
  unfold bestNumberFromTessData at h
  cases hmax : maxByConf (bestCandsOf td) with
  | none =>
    rw [hmax] at h
    exact absurd h (by simp)
  | some c =>
    rw [hmax] at h
    obtain rfl := Option.some.inj h.symm
    exact bestCands_range td c (maxByConf_mem hmax)

/-- Claim C4: every parsed label value is in [20, 3000] — both for the
suffix-trying parser `pickCandidateNumber` and for the word-based parser
`bestNumberFromTessData`; no out-of-range candidate is ever clamped into
range (an accepted value lies in the range itself). -/
theorem c4_range_filter :
    (∀ raw n, pickCandidateNumber raw = some n → 20 ≤ n ∧ n ≤ 3000) ∧
    (∀ td v, (bestNumberFromTessData td).1 = some v → 20 ≤ v ∧ v ≤ 3000) := by
  constructor
  · intro raw n h
    simp only [pickCandidateNumber] at h
    split at h
    · exact absurd h (by simp)
    · obtain ⟨t, -, ht⟩ := List.exists_of_findSome?_eq_some h
      try simp only at ht
      split at ht
      · obtain rfl := Option.some.inj ht
        assumption
      · exact absurd ht (by simp)
  · exact fun td v h => bestNumber_range h

theorem c4_range_filter_witness :
    ((20 ≤ 825 ∧ 825 ≤ 3000) ∧ (20 ≤ 42 ∧ 42 ≤ 3000)) ∧
    pickCandidateNumber raw825 = some 825 ∧
    (bestNumberFromTessData tdWord42).1 = some 42 :=
  ⟨⟨c4_range_filter.1 raw825 825 (by decide),
    c4_range_filter.2 tdWord42 42 (by decide)⟩, by decide, by decide⟩

/-- Claim C5 counterexample: the raw text 42500 does not parse to null —
its last-4-digit suffix 2500 lies inside [20, 3000] and is accepted. -/
theorem c5_42500_counterexample : pickCandidateNumber raw42500 ≠ none := by
  decide

/-- Claim C5 as amended: for the raw text 42500 parsing yields 2500 (an
in-range value), so that bar is not excluded from the usable series. -/
theorem c5_42500_parses :
    pickCandidateNumber raw42500 = some 2500 ∧ 20 ≤ 2500 ∧ 2500 ≤ 3000 := by
  decide

/-- Claim C6 counterexample: two candidates 1 px apart in xCenter — far
closer than any fraction of a plausible bar spacing — both survive into
the fused series; the lower-confidence one (777, confidence 10) is not
removed in favour of the higher-confidence one (500, confidence 90). -/
theorem c6_no_dedup_counterexample :
    (fuseCandidates cs2dup).detectedAll = [500, 777] := by
  decide

theorem mergeAux_chain (rest : List Segment) :
    ∀ acc : List Segment, List.Chain' (fun a b => 6 < a.x0 - b.x1) acc →
      List.Chain' (fun a b => 6 < a.x0 - b.x1) (mergeAux acc rest) := by
  induction rest with
  | nil =>
    intro acc h
    cases acc with
    | nil => exact h
    | cons a t => exact h
  | cons s rest ih =>
    intro acc h
    cases acc with
    | nil => exact ih [s] (List.chain'_singleton s)
    | cons last tl =>
      by_cases hc : s.x0 - last.x1 ≤ 6
      · simp only [mergeAux, if_pos hc]
        apply ih
        cases tl with
        | nil => exact List.chain'_singleton _
        | cons b tl2 =>
          rw [List.chain'_cons] at h ⊢
          exact ⟨h.1, h.2⟩
      · simp only [mergeAux, if_neg hc]
        apply ih
        rw [List.chain'_cons]
        exact ⟨by omega, h⟩

theorem mergeSegs_chain (segs : List Segment) :
    List.Chain' (fun p q => 6 < q.x0 - p.x1) (mergeSegs segs) := by
  unfold mergeSegs
  rw [List.chain'_reverse]
  exact mergeAux_chain segs [] List.chain'_nil

/-- Claim C6 as amended: the fusion step performs no xCenter-proximity
deduplication at all — every non-null candidate is kept in the series
(its values are a permutation of the input values), however close
adjacent xCenters are and whatever the confidences; the only proximity
handling is earlier, in `findBarSegments`, whose merge step fuses bar
segments with a horizontal gap of at most 6 px into one segment before
recognition, so adjacent surviving segments are always more than 6 px
apart. -/
theorem c6_no_proximity_dedup (cs : List Candidate) (segs : List Segment) :
    List.Perm (fuseCandidates cs).detectedAll (cs.map fun c => c.value) ∧
    List.Chain' (fun p q => 6 < q.x0 - p.x1) (mergeSegs segs) := by
  constructor
  · rw [fuse_detectedAll]
    exact (orderedOf_perm cs).map fun c => c.value
  · exact mergeSegs_chain segs

/-- Claim C7 counterexample: for the thirteen-candidate run `cs13` the
reported confidence is the mean over all thirteen detected candidates
(65/13 = 5), not the mean over the twelve actually used (0). -/
theorem c7_confidence_counterexample :
    (fuseCandidates cs13).confidenceAvg ≠ meanConf (usedCandsOf cs13) := by
  have hmap1 : (orderedOf cs13).map (fun c => c.conf) = 65 :: List.replicate 12 0 := by
    decide
  have hlen1 : (orderedOf cs13).length = 13 := by decide
  have hmap2 : (usedCandsOf cs13).map (fun c => c.conf) = List.replicate 12 0 := by
    decide
  have hlen2 : (usedCandsOf cs13).length = 12 := by decide
  rw [fuse_confidenceAvg]
  unfold confAvgOf meanConf
  rw [hmap1, hlen1, hmap2, hlen2, if_neg (by norm_num), if_neg (by norm_num)]
  simp only [List.sum_cons, List.sum_replicate, smul_zero]
  norm_num

/-- Claim C7 as amended: the reported confidence is the arithmetic mean
of the confidences of all detected (non-null) candidates; only when at
most 12 candidates were detected — so that all of them are used — does
it coincide with the mean over the candidates actually used. -/
theorem c7_confidence_mean_all (cs : List Candidate) :
    (fuseCandidates cs).confidenceAvg = meanConf (orderedOf cs) ∧
    (cs.length ≤ 12 → (fuseCandidates cs).confidenceAvg = meanConf (usedCandsOf cs)) := by
  have h1 : (fuseCandidates cs).confidenceAvg = meanConf (orderedOf cs) := by
    rw [fuse_confidenceAvg]
    rfl
  refine ⟨h1, fun hle => ?_⟩
  have h2 : usedCandsOf cs = orderedOf cs := by
    unfold usedCandsOf
    rw [if_neg]
    rw [orderedOf_length]
    omega
  rw [h2, h1]

theorem c7_confidence_mean_all_witness :
    cs2dup.length ≤ 12 ∧
    (fuseCandidates cs2dup).confidenceAvg = meanConf (usedCandsOf cs2dup) :=
  ⟨by decide, (c7_confidence_mean_all cs2dup).2 (by decide)⟩

/-- Claim C8 counterexample: with 14 segments found — more than the
claimed expected maximum of 13 — the strength-based keep step retains
all 14 of them; the code's threshold is 18, not 13, so no density-based
selection down to at most 13 happens. -/
theorem c8_thirteen_counterexample :
    13 < segs14.length ∧ keepByStrength segs14 = segs14 ∧
    (keepByStrength segs14).length = 14 := by
  refine ⟨by decide, ?_, ?_⟩
  · unfold keepByStrength
    rw [if_neg (by decide)]
  · unfold keepByStrength
    rw [if_neg (by decide)]
    decide

/-- Claim C8 as amended: only when more than 18 segments are found are
the 18 strongest kept (the keep step is the identity on at most 18
segments); the kept segments are then restored to ascending-x0 order and
at most the rightmost 12 are retained for recognition, still in
ascending-x0 order. -/
theorem c8_segment_selection (segs : List Segment) :
    List.Sorted segLE (selectSegsForOcr segs) ∧
    (selectSegsForOcr segs).length ≤ 12 ∧
    (segs.length ≤ 18 → keepByStrength segs = segs) ∧
    (18 < segs.length → (keepByStrength segs).length = 18) := by
  refine ⟨?_, ?_, ?_, ?_⟩
  · unfold selectSegsForOcr
    have hs : List.Sorted segLE (List.insertionSort segLE (keepByStrength segs)) :=
      List.sorted_insertionSort segLE (keepByStrength segs)
    split
    · exact List.Pairwise.sublist (List.drop_sublist _ _) hs
    · exact hs
  · unfold selectSegsForOcr
    split
    · simp only [List.length_drop]
      omega
    · omega
  · intro hle
    unfold keepByStrength
    rw [if_neg (by omega)]
  · intro hgt
    unfold keepByStrength
    rw [if_pos hgt]
    rw [List.length_take, List.length_insertionSort]
    omega

theorem c8_segment_selection_witness :
    keepByStrength segs14 = segs14 ∧ (keepByStrength segs19).length = 18 :=
  ⟨(c8_segment_selection segs14).2.2.1 (by decide),
    (c8_segment_selection segs19).2.2.2 (by decide)⟩

theorem usedBars_mem {bars : List OcrBar} {b : OcrBar} (hb : b ∈ usedBarsOf bars) :
    b ∈ bars ∧ b.value.isSome = true := by
  have hnum : b ∈ numericBarsOf bars := by
    unfold usedBarsOf at hb
    split at hb
    · exact List.mem_of_mem_drop hb
    · exact hb
  unfold numericBarsOf at hnum
  have hsplit := List.mem_filter.mp hnum
  exact ⟨((List.perm_insertionSort barLE bars).mem_iff).mp hsplit.1, by simpa using hsplit.2⟩

/-- Claim C10: the commercial-usage flag is unreachable.  Whatever the
recognition engine returns for each ROI, every value that survives
`bestNumberFromTessData` is at most 3000, so `used.some(u => u.value >
3000)` is false on every run and `handleFile` never raises the
commercial warning. -/
theorem c10_commercial_flag_unreachable (inputs : List (ℚ × TessData)) :
    commercialOutcome (barsFromTess inputs) = false := by
  unfold commercialOutcome
  split
  · rfl
  · rw [List.any_eq_false]
    intro b hb
    obtain ⟨hmem, hsome⟩ := usedBars_mem hb
    obtain ⟨p, -, rfl⟩ := List.mem_map.mp hmem
    obtain ⟨v, hv⟩ := Option.isSome_iff_exists.mp hsome
    have hv2 : (bestNumberFromTessData p.2).1 = some v := hv
    have h3 := (bestNumber_range hv2).2
    dsimp only
    rw [hv2]
    simp only [Option.getD_some, decide_eq_true_eq]
    omega

theorem foldl_congr_fn {α β : Type} {f g : β → α → β} {l : List α}
    (h : ∀ x ∈ l, ∀ b, f b x = g b x) (init : β) :
    l.foldl f init = l.foldl g init := by
  induction l generalizing init with
  | nil => rfl
  | cons a t ih =>
    rw [List.foldl_cons, List.foldl_cons, h a (List.mem_cons_self a t)]
    exact ih (fun x hx b => h x (List.mem_cons_of_mem a hx) b) _

theorem colCount_congr {g1 g2 : ℕ → ℕ → ℕ} {w h : ℕ}
    (hg : ∀ x y, x < w → y < h → g1 x y = g2 x y)
    {y0 y1 x : ℕ} (hy : y1 ≤ h) (hx : x < w) :
    colCount g1 y0 y1 x = colCount g2 y0 y1 x := by
  unfold colCount
  congr 1
  apply List.filter_congr
  intro i hi
  have hi2 : i < y1 - y0 := List.mem_range.mp hi
  have heq := hg x (y0 + i) hx (by omega)
  simp [heq]

theorem smoothAt_congr {col1 col2 : ℕ → ℕ} {w x : ℕ}
    (hc : ∀ j, j < w → col1 j = col2 j) (hx : x < w) :
    smoothAt col1 w x = smoothAt col2 w x := by
  unfold smoothAt
  have hmap : (maWindow w x).map col1 = (maWindow w x).map col2 := by
    apply List.map_congr_left
    intro j hj
    exact hc j (List.mem_range.mp (List.mem_of_mem_filter hj))
  by_cases h0 : (maWindow w x).length = 0
  · rw [if_pos h0, if_pos h0, hc x hx]
  · rw [if_neg h0, if_neg h0, hmap]

theorem scanStep_congr {v1 v2 : ℕ → ℚ} {th : ℚ} {x : ℕ} (hv : v1 x = v2 x)
    (st : ScanState) : scanStep v1 th st x = scanStep v2 th st x := by
  unfold scanStep
  rw [hv]

theorem findBarSegments_congr {g1 g2 : ℕ → ℕ → ℕ} {w h : ℕ}
    (hg : ∀ x y, x < w → y < h → g1 x y = g2 x y)
    {y0 y1 : ℕ} (hy : y1 ≤ h) :
    findBarSegments g1 w h y0 y1 = findBarSegments g2 w h y0 y1 := by
  unfold findBarSegments
  have hcol : ∀ j, j < w → colCount g1 y0 y1 j = colCount g2 y0 y1 j :=
    fun j hj => colCount_congr hg hy hj
  have hfold : (List.range w).foldl
      (scanStep (smoothAt (colCount g1 y0 y1) w) ((colThOf y0 y1 : ℤ) : ℚ))
      { segs := [], cur := none } =
      (List.range w).foldl
      (scanStep (smoothAt (colCount g2 y0 y1) w) ((colThOf y0 y1 : ℤ) : ℚ))
      { segs := [], cur := none } := by
    apply foldl_congr_fn
    intro x hx st
    exact scanStep_congr (smoothAt_congr hcol (List.mem_range.mp hx)) st
  rw [hfold]

theorem roundFrac92_le (h : ℕ) : roundFrac h (92 / 100) ≤ h := by
  unfold roundFrac
  rw [jsRound_eq_floor, Int.toNat_le]
  have h2 : Int.floor ((h : ℚ) * (92 / 100) + 1 / 2) < (h : ℤ) + 1 := by
    rw [Int.floor_lt]
    push_cast
    have h0 : (0 : ℚ) ≤ (h : ℚ) := Nat.cast_nonneg h
    linarith
  omega

theorem scanBand_congr {g1 g2 : ℕ → ℕ → ℕ} {w h : ℕ}
    (hg : ∀ x y, x < w → y < h → g1 x y = g2 x y) (y0 : ℕ) :
    scanBand g1 w h y0 = scanBand g2 w h y0 :=
  findBarSegments_congr hg (roundFrac92_le h)

theorem bestBand_congr {g1 g2 : ℕ → ℕ → ℕ} {w h : ℕ}
    (hg : ∀ x y, x < w → y < h → g1 x y = g2 x y) :
    bestBand g1 w h = bestBand g2 w h := by
  unfold bestBand
  apply foldl_congr_fn
  intro y0 hy0 b
  rw [scanBand_congr hg y0]

theorem chosenSegs_congr {g1 g2 : ℕ → ℕ → ℕ} {w h : ℕ}
    (hg : ∀ x y, x < w → y < h → g1 x y = g2 x y) :
    chosenSegs g1 w h = chosenSegs g2 w h := by
  unfold chosenSegs
  rw [bestBand_congr hg, scanBand_congr hg]

/-- Claim C9: the axis-exclusion decision is a function of the pixel
geometry alone.  The cut position is computed from the grayscale buffer
through dark-pixel column counts and fixed fractions of the dimensions;
no recognition result enters the computation, and any two images that
agree on every in-bounds pixel get the same cut, whatever is printed on
the Y axis. -/
theorem c9_axis_cut_geometry_only (g1 g2 : ℕ → ℕ → ℕ) (w h : ℕ)
    (hg : ∀ x y, x < w → y < h → g1 x y = g2 x y) :
    axisCutX g1 w h = axisCutX g2 w h := by
  unfold axisCutX
  rw [chosenSegs_congr hg]

theorem c9_axis_cut_geometry_only_witness :
    axisCutX (fun _ _ => 0) 4 4 =
      axisCutX (fun x y => if x < 4 ∧ y < 4 then 0 else 200) 4 4 :=
  c9_axis_cut_geometry_only (fun _ _ => 0)
    (fun x y => if x < 4 ∧ y < 4 then 0 else 200) 4 4
    (fun x y hx hy => by simp [hx, hy])

end Sunsol
